import Mathlib

/-!
Shallow embedding of the short-url-service core (`src/index.js`) together with
the store schema (`src/mysql.sql`).

The service resolves short paths to long URLs through a three-tier read path
(in-process LRU cache, Redis, MySQL) and creates/updates mappings in `putURL`,
which also performs deterministic short-ID generation from a sha256 digest of
the destination URL.

Modelling choices:
* JavaScript strings that may be `undefined`/`null` are `Option String`;
  JavaScript truthiness of such a value is `truthy` below
  (`undefined`, `null` and `""` are falsy).
* The MySQL table `url_mapping` is a list of `Record`s plus an auto-increment
  counter; the unique indexes on `path` and `short_id` (`src/mysql.sql`) make a
  violating `insert` fail, modelled by `Except StoreErr`.
* `crypto.createHash('sha256')` is an external primitive; the development is
  parametric over the digest function `sha256 : String → List Nat`
  (a list of bytes).  `Buffer.toString('base64')` and the repo's `urlSafe`
  are embedded (`base64Encode`, `urlSafe`).
* Asynchronous fire-and-forget effects (the cache invalidation scheduled on
  line 113 of `src/index.js`) are returned as a pending action
  (`Option String`, the path whose Redis and LRU entries will be deleted once
  the detached promise runs); `applyInvalidation` executes it.  `putURL`'s
  returned state is the state observable when its promise resolves, i.e.
  before the detached invalidation has run.
* `order by short_id` is modelled as sorting by `≤` on strings.
-/

namespace ShortUrl

/-- JavaScript truthiness of a possibly-`undefined`/`null` string:
`undefined`, `null` and the empty string are falsy. -/
def truthy : Option String → Bool
  | none => false
  | some s => decide (s ≠ "")

/-- JS `s.substring(0, n)` (`src/index.js` lines 92 and 96). -/
def jsSubstring (s : String) (n : Nat) : String :=
  String.mk (s.toList.take n)

/-- JS `s.length` on a string. -/
def jsLength (s : String) : Nat :=
  s.toList.length

/-- SQL `s like concat(pre, '%')` for non-null `s`: `s` starts with `pre`. -/
def jsStartsWith (s pre : String) : Bool :=
  pre.toList.isPrefixOf s.toList

/-- JS `String.prototype.trim` (drop surrounding whitespace). -/
def jsTrim (s : String) : String :=
  String.mk (((s.toList.dropWhile Char.isWhitespace).reverse.dropWhile
    Char.isWhitespace).reverse)

/-- The regex test `/\//.test(path)` (`src/index.js` line 81). -/
def hasSlash (p : String) : Bool :=
  p.toList.contains '/'

/-- `path.replace(/^\//, '')` (`src/index.js` line 71): the regex is anchored
and not global, so exactly one leading `'/'` is removed, and only when it is
the very first character. -/
def stripSlash (p : String) : String :=
  match p.toList with
  | '/' :: rest => String.mk rest
  | _ => p

/-- The whole normalization applied to an explicit path
(`src/index.js` line 71): strip one leading `'/'`, then trim. -/
def normalizePath (p : String) : String :=
  jsTrim (stripSlash p)

/-- The repo's `urlSafe` (`src/index.js` lines 16-24), one character at a
time: `'+' ↦ '-'`, `'/' ↦ '_'`, `'=' ↦ ''`. -/
def urlSafeChar (c : Char) : String :=
  if c = '+' then "-" else if c = '/' then "_"
  else if c = '=' then "" else String.singleton c

/-- The repo's `urlSafe` (`src/index.js` lines 16-24). -/
def urlSafe (base64 : String) : String :=
  String.join (base64.toList.map urlSafeChar)

/-- The standard base64 alphabet used by `Buffer.toString('base64')`. -/
def b64alphabet : List Char :=
  "ABCDEFGHIJKLMNOPQRSTUVWXYZabcdefghijklmnopqrstuvwxyz0123456789+/".toList

/-- The base64 digit for a 6-bit value. -/
def b64char (n : Nat) : Char :=
  b64alphabet.getD n 'A'

/-- `Buffer.toString('base64')` on a byte list, with `'='` padding. -/
def base64Encode : List Nat → String
  | [] => ""
  | [a] =>
    String.mk [b64char (a / 4), b64char (a % 4 * 16), '=', '=']
  | [a, b] =>
    String.mk [b64char (a / 4), b64char (a % 4 * 16 + b / 16),
      b64char (b % 16 * 4), '=']
  | a :: b :: c :: rest =>
    String.mk [b64char (a / 4), b64char (a % 4 * 16 + b / 16),
      b64char (b % 16 * 4 + c / 64), b64char (c % 64)] ++ base64Encode rest

/-- `urlSafe(hash.toString('base64'))` (`src/index.js` line 91), parametric
over the external sha256 digest. -/
def longId (sha256 : String → List Nat) (u : String) : String :=
  urlSafe (base64Encode (sha256 u))

/-- A row of the `url_mapping` table (`src/mysql.sql`): `short_id`, `url` and
`origin_url` are nullable, `path` is not; timestamps are abstract ticks. -/
structure Record where
  id : Nat
  short_id : Option String
  path : String
  url : Option String
  origin_url : Option String
  create_time : Nat
  last_update_time : Nat
  deriving DecidableEq, Repr

/-- The in-flight mapping object of `putURL`: the JSON request fields plus the
fields the function adds (`long_id`, `short_id`, `error`) and the row fields
present when the object is replaced by a fetched row. -/
structure Mapping where
  id : Option Nat := none
  short_id : Option String := none
  path : Option String := none
  url : Option String := none
  origin_url : Option String := none
  long_id : Option String := none
  error : Option String := none
  deriving DecidableEq, Repr

/-- A mapping request carrying only a destination URL (`write({url: U})`). -/
def autoReq (u : String) : Mapping :=
  { url := some u }

/-- The `url_mapping` table: rows plus the `AUTO_INCREMENT` counter. -/
structure DB where
  records : List Record
  nextId : Nat
  deriving DecidableEq, Repr

/-- `select * from url_mapping where path = ?` through `queryOneAsync`
(`src/index.js` lines 43-46, 58, 77): the first matching row, if any. -/
def findByPath (db : DB) (p : String) : Option Record :=
  db.records.find? (fun r => decide (r.path = p))

/-- The sort key used by `order by short_id` (a null key sorts as `""`;
the query only ever returns rows with a non-null `short_id`). -/
def shortKey (r : Record) : String :=
  r.short_id.getD ""

/-- Lexicographic `≤` on character lists, the row order produced by
`order by short_id` ascending. -/
def lexLe : List Char → List Char → Bool
  | [], _ => true
  | _ :: _, [] => false
  | a :: as, b :: bs => if a = b then lexLe as bs else decide (a < b)

/-- Row comparison for `order by short_id`. -/
def shortIdLe (a b : Record) : Bool :=
  lexLe (shortKey a).toList (shortKey b).toList

/-- Insert a row into a list sorted by `shortIdLe`. -/
def orderedInsertRec (rec : Record) : List Record → List Record
  | [] => [rec]
  | b :: l => if shortIdLe rec b then rec :: b :: l else b :: orderedInsertRec rec l

/-- Sort rows by `short_id` ascending (insertion sort). -/
def sortByShortId : List Record → List Record
  | [] => []
  | a :: l => orderedInsertRec a (sortByShortId l)

/-- The row test of `short_id like concat(?, '%')`: a `NULL` `short_id`
never matches `LIKE`. -/
def matchesPrefix (pre : String) (r : Record) : Bool :=
  match r.short_id with
  | some s => jsStartsWith s pre
  | none => false

/-- `select * from url_mapping where short_id like concat(?, '%') order by
short_id` (`src/index.js` line 93): rows whose non-null `short_id` starts
with the prefix, in ascending `short_id` order. -/
def findByShortIdPrefix (db : DB) (pre : String) : List Record :=
  sortByShortId (db.records.filter (matchesPrefix pre))

/-- `update url_mapping set url = ?, last_update_time = now() where id = ?`
(`src/index.js` line 79). -/
def updateUrlById (db : DB) (i : Nat) (u : Option String) (now : Nat) : DB :=
  { db with records := db.records.map (fun r =>
      if r.id = i then { r with url := u, last_update_time := now } else r) }

/-- The store-level failure surfaced (thrown) by the MySQL driver on a
unique-constraint violation. -/
inductive StoreErr
  | conflict
  deriving DecidableEq, Repr

/-- `insert into url_mapping ...` (`src/index.js` lines 82-84 and 105-107):
fails on a duplicate `path` or a duplicate non-null `short_id`
(the unique indexes of `src/mysql.sql`); otherwise appends the row with the
next auto-increment id and `create_time = last_update_time = now()`. -/
def insertRecord (db : DB) (sid : Option String) (p : String)
    (u ou : Option String) (now : Nat) : Except StoreErr DB :=
  if db.records.any (fun r =>
      decide (r.path = p) || (sid.isSome && decide (r.short_id = sid))) then
    .error .conflict
  else
    .ok { records := db.records ++
            [{ id := db.nextId, short_id := sid, path := p, url := u,
               origin_url := ou, create_time := now, last_update_time := now }],
          nextId := db.nextId + 1 }

/-- The whole observable state: the LRU cache and Redis as association lists
from path to url, and the MySQL table. -/
structure St where
  cache : List (String × String)
  redis : List (String × String)
  db : DB
  deriving DecidableEq, Repr

/-- `cache.get` / `redisClient.getAsync`: first value bound to the key. -/
def lookupKV (l : List (String × String)) (k : String) : Option String :=
  (l.find? (fun e => decide (e.1 = k))).map (fun e => e.2)

/-- `cache.del` / `redisClient.delAsync`: remove all bindings of the key. -/
def eraseKey (l : List (String × String)) (k : String) :
    List (String × String) :=
  l.filter (fun e => !(decide (e.1 = k)))

/-- Running the detached invalidation scheduled by `putURL`
(`src/index.js` line 113): delete the Redis entry, then the LRU entry. -/
def applyInvalidation (st : St) (p : String) : St :=
  { st with redis := eraseKey st.redis p, cache := eraseKey st.cache p }

/-- `getURL` (`src/index.js` lines 48-67): local cache, then Redis, then the
store; a falsy value at a tier (absent entry or empty string) falls through
to the next tier.  The cache backfills on lines 55 and 63 are detached
fire-and-forget writes that do not affect the value returned to the caller,
so only the returned value is modelled. -/
def getURL (st : St) (p : String) : Option String :=
  let location := lookupKV st.cache p
  if truthy location then location
  else
    let location := lookupKV st.redis p
    if truthy location then location
    else
      let location :=
        match findByPath st.db p with
        | some r => r.url
        | none => location
      location

/-- The reuse scan of `putURL` (`src/index.js` lines 97-102): walk the
colliding rows and replace the in-flight mapping by any row whose `url` is
strictly equal to the mapping's `url`. -/
def reuseFold (l : List Record) (m : Mapping) : Mapping :=
  l.foldl (fun acc rec =>
    if rec.url = acc.url then
      { id := some rec.id, short_id := rec.short_id, path := some rec.path,
        url := rec.url, origin_url := rec.origin_url } else acc) m

/-- A fetched row viewed as the in-flight mapping object (`mapping = m` on
`src/index.js` line 100): the row has no `long_id`/`error` fields. -/
def recordToMapping (rec : Record) : Mapping :=
  { id := some rec.id, short_id := rec.short_id, path := some rec.path,
    url := rec.url, origin_url := rec.origin_url }

/-- The validation message of `src/index.js` line 86. -/
def pathNeedsSlashMsg : String := "指定Path必须包含/"

/-- The validation message of `src/index.js` line 110. -/
def bothEmptyMsg : String := "Path和URL不能同时为空"

/-- The normalization of `putURL` (`src/index.js` lines 70-75): when truthy,
the path is stripped of one leading `'/'` and trimmed, and the url is
trimmed. -/
def normalizeMapping (m0 : Mapping) : Mapping :=
  let m1 := if truthy m0.path then
      { m0 with path := some (normalizePath (m0.path.getD "")) } else m0
  if truthy m1.url then
    { m1 with url := some (jsTrim (m1.url.getD "")) } else m1

/-- The url after normalization (`src/index.js` lines 73-75): trimmed when
truthy, untouched otherwise. -/
def normUrl (m0 : Mapping) : Option String :=
  if truthy m0.url then some (jsTrim (m0.url.getD "")) else m0.url

/-- The in-flight mapping produced by the auto short-link branch right before
the insert decision (`src/index.js` lines 90-103), from the normalized
request mapping `m`: candidate of the configured minimum length, recomputed
against the last colliding row, then the reuse scan. -/
def autoMapping (sha256 : String → List Nat) (k : Nat) (st : St)
    (m : Mapping) : Mapping :=
  let lid := longId sha256 (m.url.getD "")
  let cand := jsSubstring lid k
  let m2 := { m with long_id := some lid, short_id := some cand,
                     path := some cand }
  let r := findByShortIdPrefix st.db cand
  match r.getLast? with
  | none => m2
  | some lastRec =>
    let len := jsLength (shortKey lastRec)
    reuseFold r { m2 with short_id := some (jsSubstring lid len),
                          path := some (jsSubstring lid len) }

/-- The body of `putURL` up to the cache invalidation
(`src/index.js` lines 70-111): normalization, then the explicit-path branch
(update / insert / validation error), the auto short-link branch, or the
both-empty validation error.  A store unique-constraint violation rejects
the promise (`Except.error`). -/
def putURLstep (sha256 : String → List Nat) (minShortIdLength : Nat)
    (now : Nat) (st : St) (m0 : Mapping) : Except StoreErr (Mapping × St) :=
  let m := normalizeMapping m0
  if truthy m.path then
    match findByPath st.db (m.path.getD "") with
    | some r =>
      .ok (m, { st with db := updateUrlById st.db r.id m.url now })
    | none =>
      if hasSlash (m.path.getD "") then
        match insertRecord st.db none (m.path.getD "") m.url m.url now with
        | .ok db1 => .ok (m, { st with db := db1 })
        | .error e => .error e
      else
        .ok ({ m with error := some pathNeedsSlashMsg }, st)
  else if truthy m.url then
    let m3 := autoMapping sha256 minShortIdLength st m
    match m3.id with
    | some _ => .ok (m3, st)
    | none =>
      match insertRecord st.db m3.short_id (m3.path.getD "") m3.url
          m3.url now with
      | .ok db1 => .ok (m3, { st with db := db1 })
      | .error e => .error e
  else
    .ok ({ m with error := some bothEmptyMsg }, st)

/-- `putURL` (`src/index.js` lines 69-116).  Returns the mapping object sent
back to the caller, the state at the time the result is returned, and the
pending fire-and-forget cache invalidation (lines 112-114: issued exactly
when the final mapping's `path` is truthy). -/
def putURL (sha256 : String → List Nat) (minShortIdLength : Nat) (now : Nat)
    (st : St) (m0 : Mapping) :
    Except StoreErr (Mapping × St × Option String) :=
  match putURLstep sha256 minShortIdLength now st m0 with
  | .error e => .error e
  | .ok (mf, st1) =>
    .ok (mf, st1, if truthy mf.path then mf.path else none)

/-- The batch write handler `put` (`src/index.js` lines 136-145): every item
of the JSON list is fed to `putURL`; a rejected item rejects the whole
`Promise.all`, so the response carries per-item results only when every item
resolved. -/
def put (sha256 : String → List Nat) (minShortIdLength now : Nat) :
    St → List Mapping → Except StoreErr (List Mapping × St)
  | st, [] => .ok ([], st)
  | st, m :: rest =>
    match putURL sha256 minShortIdLength now st m with
    | .error e => .error e
    | .ok (m1, st1, _) =>
      match put sha256 minShortIdLength now st1 rest with
      | .error e => .error e
      | .ok (ms, st2) => .ok (m1 :: ms, st2)

/-! ### Concrete instances used in witnesses and counterexamples -/

/-- A digest function mapping every input to 32 zero bytes; its url-safe
base64 encoding is 43 `'A'`s. -/
def sha0 : String → List Nat := fun _ => List.replicate 32 0

/-- A digest function under which `"u1"` and `"u2"` hash to digests whose
encodings agree on the first two characters and differ afterwards. -/
def shaC2 : String → List Nat :=
  fun s => if s = "u2" then 0 :: 1 :: List.replicate 30 0 else List.replicate 32 0

/-- The url-safe encoding of the all-zero digest: 43 `'A'`s. -/
def lidA : String := "AAAAAAAAAAAAAAAAAAAAAAAAAAAAAAAAAAAAAAAAAAA"

/-- Empty caches, empty table. -/
def emptySt : St := { cache := [], redis := [], db := { records := [], nextId := 0 } }

/-- A stored row whose 4-character `short_id` `"AAAA"` is the longest one
colliding with the prefix `"AA"`, but not the last in ascending order. -/
def recAAAA : Record :=
  { id := 0, short_id := some "AAAA", path := "AAAA", url := some "x1",
    origin_url := some "x1", create_time := 0, last_update_time := 0 }

/-- A stored row whose 3-character `short_id` `"AAB"` sorts after `"AAAA"`. -/
def recAAB : Record :=
  { id := 1, short_id := some "AAB", path := "AAB", url := some "x2",
    origin_url := some "x2", create_time := 0, last_update_time := 0 }

/-- Store holding `recAAAA` and `recAAB`. -/
def stC1 : St := { cache := [], redis := [], db := { records := [recAAAA, recAAB], nextId := 2 } }

/-- The mapping returned for `write({url: "U"})` against `stC1`. -/
def mC1res : Mapping :=
  { short_id := some "AAA", path := some "AAA", url := some "U", long_id := some lidA }

/-- The state after `write({url: "U"})` against `stC1`. -/
def stC1after : St :=
  { cache := [], redis := [],
    db := { records := [recAAAA, recAAB,
              { id := 2, short_id := some "AAA", path := "AAA", url := some "U",
                origin_url := some "U", create_time := 5, last_update_time := 5 }],
            nextId := 3 } }

/-- The state after `write({url: "u1"})` (under `shaC2`, `k = 2`, tick 7)
against the empty store: one row with `short_id = path = "AA"`. -/
def stu1 : St :=
  { cache := [], redis := [],
    db := { records := [{ id := 0, short_id := some "AA", path := "AA",
                          url := some "u1", origin_url := some "u1",
                          create_time := 7, last_update_time := 7 }],
            nextId := 1 } }

/-- The mapping returned for the first `write({url: "u1"})`. -/
def mu1res : Mapping :=
  { short_id := some "AA", path := some "AA", url := some "u1", long_id := some lidA }

/-- The mapping returned for the failed explicit-path write of `"abc"`. -/
def mC4res : Mapping :=
  { path := some "abc", url := some "u", error := some pathNeedsSlashMsg }

/-- The state after the first `write({url: "U"})` (under `sha0`, `k = 2`,
tick 1) against the empty store. -/
def stAA : St :=
  { cache := [], redis := [],
    db := { records := [{ id := 0, short_id := some "AA", path := "AA",
                          url := some "U", origin_url := some "U",
                          create_time := 1, last_update_time := 1 }],
            nextId := 1 } }

/-- The mapping returned by the first `write({url: "U"})`. -/
def mAA1 : Mapping :=
  { short_id := some "AA", path := some "AA", url := some "U",
    long_id := some lidA }

/-- The mapping returned by the second `write({url: "U"})`: the stored row,
reused. -/
def mAA2 : Mapping :=
  { id := some 0, short_id := some "AA", path := some "AA",
    url := some "U", origin_url := some "U" }

/-- State for the cache-coherence scenario: the local cache holds the stale
`"a/b" ↦ "U1"` and the store maps `"a/b"` to `"U1"`. -/
def stC6 : St :=
  { cache := [("a/b", "U1")], redis := [],
    db := { records := [{ id := 0, short_id := none, path := "a/b",
                          url := some "U1", origin_url := some "U1",
                          create_time := 0, last_update_time := 0 }],
            nextId := 1 } }

/-- The mapping returned for `write({path: "a/b", url: "U2"})`. -/
def mC6res : Mapping := { path := some "a/b", url := some "U2" }

/-- The state right after `write({path: "a/b", url: "U2"})` returns: the row
is updated but the stale local-cache entry is still present (the invalidation
is only pending). -/
def stC6after : St :=
  { cache := [("a/b", "U1")], redis := [],
    db := { records := [{ id := 0, short_id := none, path := "a/b",
                          url := some "U2", origin_url := some "U1",
                          create_time := 0, last_update_time := 1 }],
            nextId := 1 } }

/-- The mapping returned for the explicit-path write of `" /abc"`. -/
def mC8res : Mapping := { path := some "/abc", url := some "u" }

/-- The state after the explicit-path write of `" /abc"`: a row whose path
kept its `'/'` was inserted. -/
def stC8after : St :=
  { cache := [], redis := [],
    db := { records := [{ id := 0, short_id := none, path := "/abc",
                          url := some "u", origin_url := some "u",
                          create_time := 0, last_update_time := 0 }],
            nextId := 1 } }

/-- Store holding one explicit mapping `"a/b" ↦ "U1"`. -/
def stab : St :=
  { cache := [], redis := [],
    db := { records := [{ id := 0, short_id := none, path := "a/b",
                          url := some "U1", origin_url := some "U1",
                          create_time := 0, last_update_time := 0 }],
            nextId := 1 } }

/-- The state after writing `"U1"` and then `"U2"` to the fresh path
`"a/b"` on the empty store: one row, `url = "U2"`, `origin_url = "U1"`. -/
def stabU2 : St :=
  { cache := [], redis := [],
    db := { records := [{ id := 0, short_id := none, path := "a/b",
                          url := some "U2", origin_url := some "U1",
                          create_time := 0, last_update_time := 1 }],
            nextId := 1 } }

/-- The mapping returned for `write({path: "a/b", url: " "})`. -/
def mC10res : Mapping := { path := some "a/b", url := some "" }

/-- The state after `write({path: "a/b", url: " "})`: the row's url was
overwritten with the empty string. -/
def stabAfter : St :=
  { cache := [], redis := [],
    db := { records := [{ id := 0, short_id := none, path := "a/b",
                          url := some "", origin_url := some "U1",
                          create_time := 0, last_update_time := 3 }],
            nextId := 1 } }

end ShortUrl

deriving instance DecidableEq for Except

namespace ShortUrl

/-! ### Supporting lemmas -/

theorem toList_mk (l : List Char) : (String.mk l).toList = l := rfl

theorem truthy_none : truthy none = false := rfl

theorem truthy_some (s : String) : truthy (some s) = decide (s ≠ "") := rfl

theorem truthy_some_of_ne {s : String} (h : s ≠ "") : truthy (some s) = true := by
  simp [truthy_some, h]

theorem jsTrim_empty : jsTrim "" = "" := rfl

/-- `orderedInsertRec` permutes inserting at the head. -/
theorem orderedInsertRec_perm (rec : Record) (l : List Record) :
    List.Perm (orderedInsertRec rec l) (rec :: l) := by
  induction l with
  | nil => simp [orderedInsertRec]
  | cons b t ih =>
    by_cases h : shortIdLe rec b
    · simp [orderedInsertRec, h]
    · simp only [orderedInsertRec, h, if_neg, Bool.false_eq_true,
        not_false_eq_true]
      exact ((ih.cons b).trans (List.Perm.swap rec b t))

/-- The `order by short_id` sort is a permutation of its input. -/
theorem sortByShortId_perm (l : List Record) :
    List.Perm (sortByShortId l) l := by
  induction l with
  | nil => simp [sortByShortId]
  | cons a t ih =>
    exact (orderedInsertRec_perm a (sortByShortId t)).trans (ih.cons a)

theorem mem_of_getLast?_eq {l : List Record} {a : Record}
    (h : l.getLast? = some a) : a ∈ l := by
  induction l with
  | nil => simp [List.getLast?] at h
  | cons b t ih =>
    cases t with
    | nil => simp [List.getLast?] at h; simp [h]
    | cons c u =>
      rw [List.getLast?_cons_cons] at h
      exact List.mem_cons_of_mem b (ih h)

theorem reuseFold_cons_pos {a : Record} {m : Mapping} (t : List Record)
    (h : a.url = m.url) :
    reuseFold (a :: t) m = reuseFold t (recordToMapping a) := by
  simp [reuseFold, recordToMapping, h]

theorem reuseFold_cons_neg {a : Record} {m : Mapping} (t : List Record)
    (h : ¬ a.url = m.url) :
    reuseFold (a :: t) m = reuseFold t m := by
  simp [reuseFold, h]

/-- The reuse scan never changes the in-flight mapping's `url`. -/
theorem reuseFold_url (l : List Record) (m : Mapping) :
    (reuseFold l m).url = m.url := by
  induction l generalizing m with
  | nil => rfl
  | cons a t ih =>
    by_cases h : a.url = m.url
    · rw [reuseFold_cons_pos t h, ih]
      exact h
    · rw [reuseFold_cons_neg t h]
      exact ih m

/-- If the in-flight mapping already carries an `id`, the reuse scan's result
does as well. -/
theorem reuseFold_id_isSome (l : List Record) (m : Mapping)
    (h : m.id.isSome) : (reuseFold l m).id.isSome := by
  induction l generalizing m with
  | nil => exact h
  | cons a t ih =>
    by_cases ha : a.url = m.url
    · rw [reuseFold_cons_pos t ha]
      exact ih _ rfl
    · rw [reuseFold_cons_neg t ha]
      exact ih m h

/-- If the reuse scan comes back without an `id`, no scanned row matched and
the mapping is unchanged. -/
theorem reuseFold_id_none (l : List Record) (m : Mapping)
    (h : (reuseFold l m).id = none) :
    reuseFold l m = m ∧ ∀ rec ∈ l, rec.url ≠ m.url := by
  induction l generalizing m with
  | nil => exact ⟨rfl, by simp⟩
  | cons a t ih =>
    by_cases ha : a.url = m.url
    · exfalso
      rw [reuseFold_cons_pos t ha] at h
      have := reuseFold_id_isSome t (recordToMapping a) rfl
      rw [h] at this
      simp at this
    · rw [reuseFold_cons_neg t ha] at h ⊢
      obtain ⟨h1, h2⟩ := ih m h
      refine ⟨h1, ?_⟩
      intro rec hrec
      rcases List.mem_cons.mp hrec with rfl | hmem
      · exact ha
      · exact h2 rec hmem

/-- When no scanned row matches the mapping's `url`, the reuse scan is the
identity. -/
theorem reuseFold_no_match (l : List Record) (m : Mapping)
    (h : ∀ rec ∈ l, rec.url ≠ m.url) : reuseFold l m = m := by
  induction l generalizing m with
  | nil => rfl
  | cons a t ih =>
    rw [reuseFold_cons_neg t (h a (by simp))]
    exact ih m (fun rec hrec => h rec (List.mem_cons_of_mem a hrec))

/-- When exactly one scanned row matches the mapping's `url`, the reuse scan
returns that row as the mapping. -/
theorem reuseFold_unique_match (l : List Record) (m : Mapping) (r : Record)
    (h : l.filter (fun rec => decide (rec.url = m.url)) = [r]) :
    reuseFold l m = recordToMapping r := by
  induction l generalizing m with
  | nil => simp at h
  | cons a t ih =>
    by_cases ha : a.url = m.url
    · rw [List.filter_cons_of_pos (by simp [ha])] at h
      have heq : a = r := (List.cons_eq_cons.mp h).1
      have htail : t.filter (fun rec => decide (rec.url = m.url)) = [] :=
        (List.cons_eq_cons.mp h).2
      subst heq
      rw [reuseFold_cons_pos t ha]
      refine reuseFold_no_match t (recordToMapping a) ?_
      intro rec hrec
      have hne := List.filter_eq_nil_iff.mp htail rec hrec
      have : rec.url ≠ m.url := by simpa using hne
      simpa [recordToMapping, ha] using this
    · rw [List.filter_cons_of_neg (by simp [ha])] at h
      rw [reuseFold_cons_neg t ha]
      exact ih m h

theorem normalizeMapping_path_some (m0 : Mapping) (p : String)
    (hp : m0.path = some p) (hpne : p ≠ "") :
    normalizeMapping m0 =
      { m0 with path := some (normalizePath p), url := normUrl m0 } := by
  simp only [normalizeMapping, normUrl, hp, Option.getD_some,
    truthy_some_of_ne hpne, if_true]
  by_cases hu : truthy m0.url <;> simp [hu]

theorem normalizeMapping_auto (u : String) (hune : u ≠ "") :
    normalizeMapping (autoReq u) = { url := some (jsTrim u) } := by
  simp [normalizeMapping, autoReq, truthy_none, truthy_some_of_ne hune]

/-- The reuse scan keeps an absent `error` field absent. -/
theorem reuseFold_error_none (l : List Record) (m : Mapping)
    (h : m.error = none) : (reuseFold l m).error = none := by
  induction l generalizing m with
  | nil => exact h
  | cons a t ih =>
    by_cases ha : a.url = m.url
    · rw [reuseFold_cons_pos t ha]
      exact ih _ rfl
    · rw [reuseFold_cons_neg t ha]
      exact ih m h

/-- The reuse scan and candidate recomputation keep the mapping's `url`. -/
theorem autoMapping_url (sha256 : String → List Nat) (k : Nat) (st : St)
    (m : Mapping) : (autoMapping sha256 k st m).url = m.url := by
  simp only [autoMapping]
  split
  · rfl
  · rw [reuseFold_url]

/-- The auto branch's in-flight mapping carries no `error` when the request
had none. -/
theorem autoMapping_error_none (sha256 : String → List Nat) (k : Nat)
    (st : St) (m : Mapping) (h : m.error = none) :
    (autoMapping sha256 k st m).error = none := by
  simp only [autoMapping]
  split
  · exact h
  · exact reuseFold_error_none _ _ h

/-- Unfolding of the auto short-link branch of `putURLstep` for a request
carrying only a url. -/
theorem putURLstep_auto_eq (sha256 : String → List Nat) (k now : Nat)
    (st : St) (u : String) (hu : jsTrim u ≠ "") :
    putURLstep sha256 k now st (autoReq u) =
      (match (autoMapping sha256 k st { url := some (jsTrim u) }).id with
       | some _ => .ok (autoMapping sha256 k st { url := some (jsTrim u) }, st)
       | none =>
         match insertRecord st.db
             (autoMapping sha256 k st { url := some (jsTrim u) }).short_id
             ((autoMapping sha256 k st { url := some (jsTrim u) }).path.getD "")
             (autoMapping sha256 k st { url := some (jsTrim u) }).url
             (autoMapping sha256 k st { url := some (jsTrim u) }).url now with
         | .ok db1 =>
           .ok (autoMapping sha256 k st { url := some (jsTrim u) },
                { st with db := db1 })
         | .error e => .error e) := by
  have hune : u ≠ "" := by
    intro h
    apply hu
    rw [h]
    rfl
  simp only [putURLstep, normalizeMapping_auto u hune]
  simp [truthy_none, truthy_some_of_ne hu]

/-- Unfolding of the explicit-path branch of `putURLstep`. -/
theorem putURLstep_path_eq (sha256 : String → List Nat) (k now : Nat)
    (st : St) (m0 : Mapping) (p : String)
    (hp : m0.path = some p) (hn : normalizePath p ≠ "") :
    putURLstep sha256 k now st m0 =
      (match findByPath st.db (normalizePath p) with
       | some r =>
         .ok ({ m0 with path := some (normalizePath p), url := normUrl m0 },
              { st with db := updateUrlById st.db r.id (normUrl m0) now })
       | none =>
         if hasSlash (normalizePath p) then
           match insertRecord st.db none (normalizePath p) (normUrl m0)
               (normUrl m0) now with
           | .ok db1 =>
             .ok ({ m0 with path := some (normalizePath p),
                            url := normUrl m0 }, { st with db := db1 })
           | .error e => .error e
         else
           .ok ({ m0 with path := some (normalizePath p), url := normUrl m0,
                          error := some pathNeedsSlashMsg }, st)) := by
  have hpne : p ≠ "" := by
    intro h
    apply hn
    rw [h]
    rfl
  simp only [putURLstep, normalizeMapping_path_some m0 p hp hpne]
  simp [truthy_some_of_ne hn]

theorem lookupKV_eraseKey (l : List (String × String)) (k : String) :
    lookupKV (eraseKey l k) k = none := by
  induction l with
  | nil => rfl
  | cons e t ih =>
    by_cases h : e.1 = k
    · simpa [eraseKey, List.filter_cons, h] using ih
    · have hcons : eraseKey (e :: t) k = e :: eraseKey t k := by
        simp [eraseKey, List.filter_cons, h]
      rw [hcons]
      simp only [lookupKV, List.find?_cons] at ih ⊢
      rw [show (decide (e.1 = k)) = false by simp [h]]
      exact ih

theorem normalizeMapping_error (m0 : Mapping) :
    (normalizeMapping m0).error = m0.error := by
  simp only [normalizeMapping]
  by_cases hp : truthy m0.path <;> by_cases hu : truthy m0.url <;>
    simp [hp, hu]

/-- When `putURLstep` resolves with a mapping carrying a (fresh) error, it
did not touch the state: the validation-error leaves return `st` as is. -/
theorem putURLstep_error_state (sha256 : String → List Nat) (k now : Nat)
    (st : St) (m0 : Mapping) (mf : Mapping) (stf : St)
    (h0 : m0.error = none)
    (hstep : putURLstep sha256 k now st m0 = .ok (mf, stf))
    (e : String) (herr : mf.error = some e) :
    stf = st := by
  simp only [putURLstep] at hstep
  split at hstep
  · -- explicit-path branch
    split at hstep
    · -- update: mapping's error is untouched, contradiction
      simp only [Except.ok.injEq, Prod.mk.injEq] at hstep
      rw [← hstep.1, normalizeMapping_error m0, h0] at herr
      exact absurd herr (by simp)
    · split at hstep
      · -- insert on a fresh path
        split at hstep
        · simp only [Except.ok.injEq, Prod.mk.injEq] at hstep
          rw [← hstep.1, normalizeMapping_error m0, h0] at herr
          exact absurd herr (by simp)
        · exact absurd hstep (by simp)
      · -- validation error: state untouched
        simp only [Except.ok.injEq, Prod.mk.injEq] at hstep
        exact hstep.2.symm
  · split at hstep
    · -- auto branch: the in-flight mapping never carries an error here
      have herrnone : (autoMapping sha256 k st (normalizeMapping m0)).error
          = none :=
        autoMapping_error_none sha256 k st (normalizeMapping m0)
          (by rw [normalizeMapping_error m0, h0])
      split at hstep
      · simp only [Except.ok.injEq, Prod.mk.injEq] at hstep
        exact hstep.2.symm
      · split at hstep
        · simp only [Except.ok.injEq, Prod.mk.injEq] at hstep
          rw [← hstep.1, herrnone] at herr
          exact absurd herr (by simp)
        · exact absurd hstep (by simp)
    · -- both-empty validation error: state untouched
      simp only [Except.ok.injEq, Prod.mk.injEq] at hstep
      exact hstep.2.symm

/-- `findByPath` after `updateUrlById`: the same row is found, updated. -/
theorem findByPath_update (db : DB) (i : Nat) (u : Option String)
    (now : Nat) (p : String) :
    findByPath (updateUrlById db i u now) p =
      (findByPath db p).map (fun r =>
        if r.id = i then { r with url := u, last_update_time := now }
        else r) := by
  simp only [findByPath, updateUrlById]
  rw [List.find?_map]
  have hpred : ((fun r : Record => decide (r.path = p)) ∘ (fun r : Record =>
      if r.id = i then { r with url := u, last_update_time := now }
      else r)) = (fun r : Record => decide (r.path = p)) := by
    funext r
    by_cases h : r.id = i <;> simp [h]
  rw [hpred]

/-- `isPrefixOf` between two takes of the same list, as soon as the longer
take covers the shorter one's length. -/
theorem take_isPrefixOf_take (l : List Char) :
    ∀ (a b : Nat), (l.take a).length ≤ b →
      (l.take a).isPrefixOf (l.take b) = true := by
  induction l with
  | nil =>
    intro a b _
    simp [List.isPrefixOf]
  | cons c t ih =>
    intro a b h
    cases a with
    | zero => simp [List.isPrefixOf]
    | succ a1 =>
      cases b with
      | zero =>
        exfalso
        simp at h
      | succ b1 =>
        simp only [List.take_succ_cons, List.isPrefixOf, beq_self_eq_true,
          Bool.true_and]
        refine ih a1 b1 ?_
        simpa using h

/-- A Boolean list-level pre-check implies the length inequality. -/
theorem isPrefixOf_length_le :
    ∀ (x y : List Char), x.isPrefixOf y = true → x.length ≤ y.length := by
  intro x
  induction x with
  | nil =>
    intro y _
    simp
  | cons c t ih =>
    intro y h
    cases y with
    | nil => simp [List.isPrefixOf] at h
    | cons d u =>
      simp only [List.isPrefixOf, Bool.and_eq_true] at h
      simpa using ih u h.2

theorem jsStartsWith_jsSubstring (lid : String) (a b : Nat)
    (h : (lid.toList.take a).length ≤ b) :
    jsStartsWith (jsSubstring lid b) (jsSubstring lid a) = true := by
  simp only [jsStartsWith, jsSubstring, toList_mk]
  exact take_isPrefixOf_take lid.toList a b h

/-- Membership in the collision query is membership in the filtered table. -/
theorem mem_findByShortIdPrefix {db : DB} {pre : String} {rec : Record} :
    rec ∈ findByShortIdPrefix db pre ↔
      rec ∈ db.records.filter (matchesPrefix pre) :=
  (sortByShortId_perm (db.records.filter (matchesPrefix pre))).mem_iff

/-- Every row returned by the collision query has a `short_id` at least as
long as the query prefix. -/
theorem preLength_le_of_mem (db : DB) (pre : String) (rec : Record)
    (hmem : rec ∈ findByShortIdPrefix db pre) :
    pre.toList.length ≤ jsLength (shortKey rec) := by
  have hfil := mem_findByShortIdPrefix.mp hmem
  have hpred := List.of_mem_filter hfil
  cases hsid : rec.short_id with
  | none => rw [matchesPrefix, hsid] at hpred; exact absurd hpred (by simp)
  | some s =>
    rw [matchesPrefix, hsid] at hpred
    have := isPrefixOf_length_le pre.toList s.toList hpred
    simpa [jsLength, shortKey, hsid] using this

/-- Successful inserts append the fresh row and bump the counter. -/
theorem insertRecord_ok_shape (db : DB) (sid : Option String) (p : String)
    (u ou : Option String) (now : Nat) (db1 : DB)
    (h : insertRecord db sid p u ou now = .ok db1) :
    db1 = { records := db.records ++
              [{ id := db.nextId, short_id := sid, path := p, url := u,
                 origin_url := ou, create_time := now,
                 last_update_time := now }],
            nextId := db.nextId + 1 } := by
  simp only [insertRecord] at h
  split at h
  · exact absurd h (by simp)
  · simp only [Except.ok.injEq] at h
    exact h.symm

/-- The mapping produced by the auto branch when no reuse happened: the
request is unchanged apart from `long_id`, `short_id` and `path`, the
candidate starts with the query prefix, and no colliding row carried the
same url. -/
theorem autoMapping_id_none (sha256 : String → List Nat) (k : Nat) (st : St)
    (u' : String)
    (hid : (autoMapping sha256 k st { url := some u' }).id = none) :
    ∃ c : String,
      autoMapping sha256 k st { url := some u' } =
        { url := some u', long_id := some (longId sha256 u'),
          short_id := some c, path := some c } ∧
      jsStartsWith c (jsSubstring (longId sha256 u') k) = true ∧
      (∀ rec ∈ findByShortIdPrefix st.db
          (jsSubstring (longId sha256 u') k),
        rec.url ≠ some u') := by
  simp only [autoMapping, Option.getD_some] at hid ⊢
  cases hg : (findByShortIdPrefix st.db
      (jsSubstring (longId sha256 u') k)).getLast? with
  | none =>
    refine ⟨jsSubstring (longId sha256 u') k, rfl, ?_, ?_⟩
    · refine jsStartsWith_jsSubstring (longId sha256 u') k k ?_
      rw [List.length_take]
      exact Nat.min_le_left _ _
    · intro rec hrec
      rw [List.getLast?_eq_none_iff.mp hg] at hrec
      exact absurd hrec (by simp)
  | some lastRec =>
    rw [hg] at hid
    have hbase := reuseFold_id_none _ _ hid
    refine ⟨jsSubstring (longId sha256 u') (jsLength (shortKey lastRec)),
      hbase.1, ?_, ?_⟩
    · have hlen := preLength_le_of_mem st.db
        (jsSubstring (longId sha256 u') k) lastRec (mem_of_getLast?_eq hg)
      refine jsStartsWith_jsSubstring (longId sha256 u') k _ ?_
      simpa [jsSubstring, toList_mk] using hlen
    · intro rec hrec
      have := hbase.2 rec hrec
      simpa using this

/-- After inserting the fresh auto row for url `u'` (whose candidate starts
with the same query prefix), a second auto write for `u'` scans the colliding
rows and reuses exactly the inserted row. -/
theorem autoMapping_reuse_inserted (sha256 : String → List Nat) (k : Nat)
    (st st1 : St) (u' c : String) (newRec : Record)
    (hrecs : st1.db.records = st.db.records ++ [newRec])
    (hsid : newRec.short_id = some c)
    (hurl : newRec.url = some u')
    (hcpre : jsStartsWith c (jsSubstring (longId sha256 u') k) = true)
    (hnm : ∀ rec ∈ findByShortIdPrefix st.db
        (jsSubstring (longId sha256 u') k),
      rec.url ≠ some u') :
    autoMapping sha256 k st1 { url := some u' } = recordToMapping newRec := by
  have hPnew : matchesPrefix (jsSubstring (longId sha256 u') k) newRec
      = true := by
    rw [matchesPrefix, hsid]
    exact hcpre
  have hfil : st1.db.records.filter
      (matchesPrefix (jsSubstring (longId sha256 u') k)) =
      st.db.records.filter
        (matchesPrefix (jsSubstring (longId sha256 u') k)) ++ [newRec] := by
    rw [hrecs, List.filter_append, List.filter_cons_of_pos hPnew]
    rfl
  have hmemNew : newRec ∈ findByShortIdPrefix st1.db
      (jsSubstring (longId sha256 u') k) := by
    rw [mem_findByShortIdPrefix, hfil]
    simp
  simp only [autoMapping, Option.getD_some]
  cases hg : (findByShortIdPrefix st1.db
      (jsSubstring (longId sha256 u') k)).getLast? with
  | none =>
    exfalso
    rw [List.getLast?_eq_none_iff.mp hg] at hmemNew
    exact absurd hmemNew (by simp)
  | some last2 =>
    refine reuseFold_unique_match _ _ newRec ?_
    have hperm : List.Perm
        ((findByShortIdPrefix st1.db
          (jsSubstring (longId sha256 u') k)).filter
          (fun rec => decide (rec.url = some u')))
        ((st1.db.records.filter
          (matchesPrefix (jsSubstring (longId sha256 u') k))).filter
          (fun rec => decide (rec.url = some u'))) :=
      List.Perm.filter _ (sortByShortId_perm _)
    have hnil : (st.db.records.filter
        (matchesPrefix (jsSubstring (longId sha256 u') k))).filter
        (fun rec => decide (rec.url = some u')) = [] := by
      refine List.filter_eq_nil_iff.mpr ?_
      intro rec hmem
      have : rec ∈ findByShortIdPrefix st.db
          (jsSubstring (longId sha256 u') k) :=
        mem_findByShortIdPrefix.mpr hmem
      simpa using hnm rec this
    have htarget : (st1.db.records.filter
        (matchesPrefix (jsSubstring (longId sha256 u') k))).filter
        (fun rec => decide (rec.url = some u')) = [newRec] := by
      rw [hfil, List.filter_append, hnil, List.nil_append,
        List.filter_cons_of_pos (by simp [hurl])]
      rfl
    rw [htarget] at hperm
    exact List.perm_singleton.mp hperm

/-- Inserting a row with a `NULL` `short_id` at a path not present in the
store cannot violate the unique indexes. -/
theorem insertRecord_path_fresh (db : DB) (p : String) (u ou : Option String)
    (now : Nat) (hf : findByPath db p = none) :
    insertRecord db none p u ou now =
      .ok { records := db.records ++
              [{ id := db.nextId, short_id := none, path := p, url := u,
                 origin_url := ou, create_time := now,
                 last_update_time := now }],
            nextId := db.nextId + 1 } := by
  have hall := List.find?_eq_none.mp hf
  simp only [insertRecord, Option.isSome_none, Bool.false_and, Bool.or_false]
  rw [if_neg]
  intro hany
  obtain ⟨rec, hmem, hpred⟩ := List.any_eq_true.mp hany
  exact hall rec hmem hpred

/-- After appending a row whose path is `p` to a store with no row at `p`,
`findByPath` finds exactly that row. -/
theorem findByPath_append_fresh (l : List Record) (n m : Nat) (rec : Record)
    (p : String) (hf : findByPath { records := l, nextId := n } p = none)
    (hrec : rec.path = p) :
    findByPath { records := l ++ [rec], nextId := m } p = some rec := by
  simp only [findByPath] at hf ⊢
  rw [List.find?_append, hf]
  simp [hrec]

/-! ### Claims settled by concrete evaluation -/

/-- **C2** (code bug).  Two distinct URLs `"u1"`, `"u2"` whose hash encodings
share the 2-character prefix `"AA"` (with `minShortIdLength = 2`): the claim
says both receive distinct `short_id`s of length `> 2`, each a prefix of its
own encoding.  The code instead gives the first URL a `short_id` of length
exactly 2, and the second write recomputes the same 2-character candidate
(the colliding row's `short_id` has length 2), finds no reusable row, and its
insert violates the unique `short_id` index: the write fails with a store
conflict and the second URL receives no `short_id` at all. -/
theorem claim2_collision_growth_fails :
    jsSubstring (longId shaC2 "u1") 2 = "AA" ∧
    jsSubstring (longId shaC2 "u2") 2 = "AA" ∧
    longId shaC2 "u1" ≠ longId shaC2 "u2" ∧
    putURL shaC2 2 7 emptySt (autoReq "u1") = .ok (mu1res, stu1, some "AA") ∧
    mu1res.short_id = some "AA" ∧ jsLength "AA" = 2 ∧
    putURL shaC2 2 8 stu1 (autoReq "u2") = .error .conflict := by
  refine ⟨by decide, by decide, by decide, by decide, by decide, by decide, by decide⟩

/-- **C5** (code bug).  When an item's insert fails with a unique-constraint
violation, the claim says the write result list still contains an entry for
that item carrying an error.  In the code the rejected `putURL` promise
rejects the whole `Promise.all` (`src/index.js` line 139), so the batch
produces no result list at all: the failure replaces the per-item results of
the whole batch. -/
theorem claim5_conflict_rejects_whole_batch :
    put shaC2 2 8 stu1 [autoReq "u2"] = .error .conflict := by
  decide

/-- **C1** (counterexample).  Colliding rows `"AAAA"` (length 4) and `"AAB"`
(length 3): ascending `short_id` order puts `"AAB"` last, so the code
recomputes the candidate with length 3 (`"AAA"`), while the longest colliding
`short_id` is `"AAAA"` of length 4 — the claim's recomputed length (the
longest) disagrees with the code's (the last in ascending order). -/
theorem claim1_counterexample :
    findByShortIdPrefix stC1.db (jsSubstring (longId sha0 "U") 2) = [recAAAA, recAAB] ∧
    jsLength (shortKey recAAAA) = 4 ∧
    jsLength (shortKey recAAB) = 3 ∧
    putURL sha0 2 5 stC1 (autoReq "U") = .ok (mC1res, stC1after, some "AAA") ∧
    mC1res.short_id = some "AAA" ∧
    mC1res.short_id ≠ some (jsSubstring (longId sha0 "U") 4) := by
  refine ⟨by decide, by decide, by decide, by decide, by decide, by decide⟩

/-- **C4** (counterexample).  The explicit-path write of `"abc"` (no stored
record, no `'/'` in the path) fails with the validation error and writes no
record, but the code still schedules the cache invalidation for `"abc"`
(`src/index.js` lines 112-114 test the mapping's path, not its success), so
the claim's "no cache invalidation is issued for that path" is false. -/
theorem claim4_counterexample :
    putURL sha0 2 0 emptySt { path := some "abc", url := some "u" } =
      .ok (mC4res, emptySt, some "abc") ∧
    mC4res.error = some pathNeedsSlashMsg ∧
    (some "abc" : Option String) ≠ none := by
  refine ⟨by decide, by decide, by decide⟩

/-- **C6** (counterexample).  After `write({path: "a/b", url: "U2"})`
returns, the store row already holds `"U2"` but the invalidation of the local
cache is only a pending fire-and-forget action, so a `resolve("a/b")`
performed on the returned state still answers the stale cached `"U1"`. -/
theorem claim6_counterexample :
    putURL sha0 2 1 stC6 { path := some "a/b", url := some "U2" } =
      .ok (mC6res, stC6after, some "a/b") ∧
    (findByPath stC6after.db "a/b").map Record.url = some (some "U2") ∧
    getURL stC6after "a/b" = some "U1" ∧
    (some "U1" : Option String) ≠ some "U2" := by
  refine ⟨by decide, by decide, by decide, by decide⟩

/-- **C8** (counterexample).  The code strips the leading `'/'` *before*
trimming (`src/index.js` line 71), so the input path `" /abc"` — whose first
character is a space, not a slash — normalizes to `"/abc"`, not to the
claim's `"abc"`; the normalized path keeps a leading `'/'`. -/
theorem claim8_counterexample :
    normalizePath " /abc" = "/abc" ∧
    putURL sha0 2 0 emptySt { path := some " /abc", url := some "u" } =
      .ok (mC8res, stC8after, some "/abc") ∧
    mC8res.path = some "/abc" ∧
    mC8res.path ≠ some "abc" := by
  refine ⟨by decide, by decide, by decide, by decide⟩

/-- **C10** (counterexample).  A whitespace-only `url` (`" "`) is truthy, so
it is trimmed to `""` and the update branch stores the *empty string*, not
`null` as the claim says (`undefined` would be sent as SQL `NULL`, but
`''` is a non-null SQL value). -/
theorem claim10_counterexample :
    putURL sha0 2 3 stab { path := some "a/b", url := some " " } =
      .ok (mC10res, stabAfter, some "a/b") ∧
    (findByPath stabAfter.db "a/b").map Record.url = some (some "") ∧
    (some "" : Option String) ≠ none := by
  refine ⟨by decide, by decide, by decide⟩

/-! ### Claims settled by proof -/

/-- **C9** (confirmed).  Every tier's hit test is JS truthiness, so an
empty-string value at the local cache or at Redis falls through to the store
(the resolver returns the store's answer even though both caches held an
entry), and a stored empty url yields a falsy result — the same falsiness an
entirely unknown path produces, so the two are indistinguishable at the
resolve interface. -/
theorem claim9_empty_url_resolves_absent (st : St) (p q : String) (r : Record)
    (hc : lookupKV st.cache p = some "")
    (hr : lookupKV st.redis p = some "")
    (hf : findByPath st.db p = some r)
    (hcq : lookupKV st.cache q = none)
    (hrq : lookupKV st.redis q = none)
    (hfq : findByPath st.db q = none) :
    getURL st p = r.url ∧
    (r.url = some "" → truthy (getURL st p) = false) ∧
    getURL st q = none ∧
    truthy (getURL st q) = false := by
  refine ⟨?_, ?_, ?_, ?_⟩
  · simp only [getURL, hc, hr, hf, truthy_some]
    simp
  · intro hu
    simp only [getURL, hc, hr, hf, hu, truthy_some]
    simp [truthy]
  · simp [getURL, hcq, hrq, hfq, truthy_none]
  · simp [getURL, hcq, hrq, hfq, truthy_none]

/-- Closed instantiation of `claim9_empty_url_resolves_absent`. -/
theorem claim9_witness :
    getURL { cache := [("e", "")], redis := [("e", "")],
             db := { records := [{ id := 0, short_id := none, path := "e",
                                   url := some "", origin_url := some "",
                                   create_time := 0,
                                   last_update_time := 0 }],
                     nextId := 1 } } "e" = some "" ∧
    truthy (getURL { cache := [("e", "")], redis := [("e", "")],
                     db := { records := [{ id := 0, short_id := none,
                                           path := "e", url := some "",
                                           origin_url := some "",
                                           create_time := 0,
                                           last_update_time := 0 }],
                             nextId := 1 } } "q") = false := by
  have h := claim9_empty_url_resolves_absent
    { cache := [("e", "")], redis := [("e", "")],
      db := { records := [{ id := 0, short_id := none, path := "e",
                            url := some "", origin_url := some "",
                            create_time := 0, last_update_time := 0 }],
              nextId := 1 } } "e" "q"
    { id := 0, short_id := none, path := "e", url := some "",
      origin_url := some "", create_time := 0, last_update_time := 0 }
    (by decide) (by decide) (by decide) (by decide) (by decide) (by decide)
  exact ⟨h.1, h.2.2.2⟩

/-- **C6** (amended).  The write's cache invalidation is fire-and-forget, so
the local cache may still answer the stale `U1` after the write returns (see
the counterexample); what does hold is: the write on an existing path always
queues an invalidation for exactly that path, and once that pending
invalidation has run, a resolve of the path goes through to the store and
returns the freshly written url — no stale cached value. -/
theorem claim6_invalidation_after_completion (sha256 : String → List Nat)
    (k now : Nat) (st : St) (p u : String) (r : Record)
    (hn : normalizePath p ≠ "") (hu : jsTrim u ≠ "")
    (hf : findByPath st.db (normalizePath p) = some r)
    (m' : Mapping) (st' : St) (pend : Option String)
    (hok : putURL sha256 k now st { path := some p, url := some u } =
      .ok (m', st', pend)) :
    pend = some (normalizePath p) ∧
    getURL (applyInvalidation st' (normalizePath p)) (normalizePath p) =
      some (jsTrim u) := by
  have hune : u ≠ "" := by
    intro h
    apply hu
    rw [h]
    rfl
  have hnu : normUrl { path := some p, url := some u } = some (jsTrim u) := by
    simp [normUrl, truthy_some_of_ne hune]
  simp only [putURL, putURLstep_path_eq sha256 k now st
    { path := some p, url := some u } p rfl hn, hf, hnu] at hok
  simp only [truthy_some_of_ne hn, if_true] at hok
  simp only [Except.ok.injEq, Prod.mk.injEq] at hok
  obtain ⟨hm, hst, hpend⟩ := hok
  refine ⟨hpend.symm, ?_⟩
  rw [← hst]
  simp only [applyInvalidation, getURL, lookupKV_eraseKey, truthy_none,
    Bool.false_eq_true, if_false]
  rw [findByPath_update, hf]
  simp

/-- Closed instantiation of `claim6_invalidation_after_completion`. -/
theorem claim6_witness :
    getURL (applyInvalidation stC6after "a/b") "a/b" = some "U2" :=
  (claim6_invalidation_after_completion sha0 2 1 stC6 "a/b" "U2"
    { id := 0, short_id := none, path := "a/b", url := some "U1",
      origin_url := some "U1", create_time := 0, last_update_time := 0 }
    (by decide) (by decide) (by decide)
    mC6res stC6after (some "a/b") (by decide)).2

/-- **C4** (amended).  A write item that results in an error writes no record
and leaves the whole state untouched; but the cache invalidation is skipped
only when the resulting mapping's path is falsy (the both-empty error), while
an explicit-path validation error still issues the invalidation for that path
(see the counterexample). -/
theorem claim4_error_leaves_state (sha256 : String → List Nat) (k now : Nat)
    (st : St) (m0 : Mapping) (m' : Mapping) (st' : St) (pend : Option String)
    (e : String)
    (h0 : m0.error = none)
    (hok : putURL sha256 k now st m0 = .ok (m', st', pend))
    (herr : m'.error = some e) :
    st' = st ∧ (pend = none ↔ truthy m'.path = false) := by
  simp only [putURL] at hok
  cases hstep : putURLstep sha256 k now st m0 with
  | error e2 =>
    rw [hstep] at hok
    exact absurd hok (by simp)
  | ok pair =>
    obtain ⟨mf, stf⟩ := pair
    rw [hstep] at hok
    simp only [Except.ok.injEq, Prod.mk.injEq] at hok
    obtain ⟨hm, hst, hpend⟩ := hok
    rw [← hm] at herr
    rw [← hm, ← hst, ← hpend]
    refine ⟨putURLstep_error_state sha256 k now st m0 mf stf h0 hstep e herr,
      ?_⟩
    by_cases hp : truthy mf.path
    · simp only [hp, if_true]
      constructor
      · intro hnone
        rw [hnone] at hp
        exact absurd hp (by simp [truthy_none])
      · intro hfalse
        exact absurd hfalse (by simp)
    · simp only [Bool.not_eq_true] at hp
      simp [hp]

/-- Closed instantiation of `claim4_error_leaves_state` at the both-empty
validation error. -/
theorem claim4_witness :
    (emptySt : St) = emptySt ∧
    ((none : Option String) = none ↔
      truthy ({ error := some bothEmptyMsg } : Mapping).path = false) :=
  claim4_error_leaves_state sha0 2 0 emptySt {} { error := some bothEmptyMsg }
    emptySt none bothEmptyMsg (by decide) (by decide) (by decide)

/-- **C8** (amended).  Before the branch logic runs, the path is normalized
by stripping one leading `'/'` — only when the slash is the raw path's first
character — and *then* trimming surrounding whitespace, and a truthy url is
trimmed: the resulting mapping's path is `jsTrim (stripSlash p)`, which may
keep a leading `'/'` when whitespace preceded it (see the counterexample
`" /abc" ↦ "/abc"`). -/
theorem claim8_normalization_order (sha256 : String → List Nat) (k now : Nat)
    (st : St) (m0 : Mapping) (p u : String)
    (m' : Mapping) (st' : St) (pend : Option String)
    (hp : m0.path = some p) (hn : normalizePath p ≠ "")
    (hu : m0.url = some u) (hune : u ≠ "")
    (hok : putURL sha256 k now st m0 = .ok (m', st', pend)) :
    m'.path = some (jsTrim (stripSlash p)) ∧ m'.url = some (jsTrim u) := by
  have hnu : normUrl m0 = some (jsTrim u) := by
    simp [normUrl, hu, truthy_some_of_ne hune]
  simp only [putURL] at hok
  cases hstep : putURLstep sha256 k now st m0 with
  | error e2 =>
    rw [hstep] at hok
    exact absurd hok (by simp)
  | ok pair =>
    obtain ⟨mf, stf⟩ := pair
    rw [hstep] at hok
    simp only [Except.ok.injEq, Prod.mk.injEq] at hok
    rw [putURLstep_path_eq sha256 k now st m0 p hp hn, hnu] at hstep
    rw [← hok.1]
    split at hstep
    · simp only [Except.ok.injEq, Prod.mk.injEq] at hstep
      rw [← hstep.1]
      exact ⟨rfl, rfl⟩
    · split at hstep
      · split at hstep
        · simp only [Except.ok.injEq, Prod.mk.injEq] at hstep
          rw [← hstep.1]
          exact ⟨rfl, rfl⟩
        · exact absurd hstep (by simp)
      · simp only [Except.ok.injEq, Prod.mk.injEq] at hstep
        rw [← hstep.1]
        exact ⟨rfl, rfl⟩

/-- Closed instantiation of `claim8_normalization_order`. -/
theorem claim8_witness :
    mC8res.path = some (jsTrim (stripSlash " /abc")) ∧
    mC8res.url = some (jsTrim "u") :=
  claim8_normalization_order sha0 2 0 emptySt
    { path := some " /abc", url := some "u" } " /abc" "u"
    mC8res stC8after (some "/abc")
    (by decide) (by decide) (by decide) (by decide) (by decide)

/-- **C10** (amended).  An explicit-path write matching an existing record
with no usable url still runs the update branch (no rejection — the result's
`error` is absent): an *absent* url overwrites the stored url with SQL
`NULL`, while a *whitespace-only* url is truthy, trims to `""`, and
overwrites the stored url with the empty string (not `NULL`; see the
counterexample). -/
theorem claim10_missing_url_still_updates (sha256 : String → List Nat)
    (k now : Nat) (st : St) (p : String) (r : Record)
    (hn : normalizePath p ≠ "")
    (hf : findByPath st.db (normalizePath p) = some r) :
    (∀ m' st' pend,
      putURL sha256 k now st { path := some p } = .ok (m', st', pend) →
      m'.error = none ∧
      st'.db.records = st.db.records.map (fun rec =>
        if rec.id = r.id then
          { rec with url := none, last_update_time := now }
        else rec)) ∧
    (∀ w m' st' pend, w ≠ "" → jsTrim w = "" →
      putURL sha256 k now st { path := some p, url := some w } =
        .ok (m', st', pend) →
      m'.error = none ∧
      st'.db.records = st.db.records.map (fun rec =>
        if rec.id = r.id then
          { rec with url := some "", last_update_time := now }
        else rec)) := by
  constructor
  · intro m' st' pend hok
    have hnu : normUrl { path := some p } = none := by
      simp [normUrl, truthy_none]
    simp only [putURL, putURLstep_path_eq sha256 k now st
      { path := some p } p rfl hn, hnu, hf] at hok
    simp only [Except.ok.injEq, Prod.mk.injEq] at hok
    obtain ⟨hm, hst, _⟩ := hok
    rw [← hm, ← hst]
    exact ⟨rfl, rfl⟩
  · intro w m' st' pend hw hwt hok
    have hnu : normUrl { path := some p, url := some w } = some "" := by
      simp [normUrl, truthy_some_of_ne hw, hwt]
    simp only [putURL, putURLstep_path_eq sha256 k now st
      { path := some p, url := some w } p rfl hn, hnu, hf] at hok
    simp only [Except.ok.injEq, Prod.mk.injEq] at hok
    obtain ⟨hm, hst, _⟩ := hok
    rw [← hm, ← hst]
    exact ⟨rfl, rfl⟩

/-- Closed instantiation of `claim10_missing_url_still_updates` (the
whitespace-only part, against `stab`). -/
theorem claim10_witness :
    mC10res.error = none ∧
    stabAfter.db.records = stab.db.records.map (fun rec =>
      if rec.id = 0 then { rec with url := some "", last_update_time := 3 }
      else rec) :=
  (claim10_missing_url_still_updates sha0 2 3 stab "a/b"
    { id := 0, short_id := none, path := "a/b", url := some "U1",
      origin_url := some "U1", create_time := 0, last_update_time := 0 }
    (by decide) (by decide)).2 " " mC10res stabAfter (some "a/b")
    (by decide) (by decide) (by decide)

/-- **C7** (confirmed).  First part (frame): an explicit-path write that
matches an existing record only rewrites that record's `url` and update
timestamp — pointwise, every row keeps its `id`, `path`, `short_id`,
`origin_url` and creation time, rows other than the matched one are entirely
unchanged, and the table gains no row (same length, same auto-increment
counter).  Second part: writing `U1` and then `U2` to the same fresh path
`"a/b"` leaves exactly one row at that path, with `url = U2` (trimmed) and
`origin_url = U1` (trimmed). -/
theorem claim7_update_frame (sha256 : String → List Nat) (k now now2 : Nat)
    (st : St) :
    (∀ (m0 : Mapping) (p : String) (r : Record) (m' : Mapping) (st' : St)
      (pend : Option String),
      m0.path = some p → normalizePath p ≠ "" →
      findByPath st.db (normalizePath p) = some r →
      putURL sha256 k now st m0 = .ok (m', st', pend) →
      st'.db.records.length = st.db.records.length ∧
      st'.db.nextId = st.db.nextId ∧
      List.Forall₂ (fun nr ro : Record =>
        nr.id = ro.id ∧ nr.path = ro.path ∧ nr.short_id = ro.short_id ∧
        nr.origin_url = ro.origin_url ∧ nr.create_time = ro.create_time ∧
        (ro.id ≠ r.id → nr = ro)) st'.db.records st.db.records) ∧
    (∀ (u1 u2 : String) (ma mb : Mapping) (st1 st2 : St)
      (pa pb : Option String),
      findByPath st.db "a/b" = none → u1 ≠ "" → u2 ≠ "" →
      putURL sha256 k now st { path := some "a/b", url := some u1 } =
        .ok (ma, st1, pa) →
      putURL sha256 k now2 st1 { path := some "a/b", url := some u2 } =
        .ok (mb, st2, pb) →
      (st2.db.records.filter (fun rec => decide (rec.path = "a/b"))).map
          (fun rec => (rec.url, rec.origin_url)) =
        [(some (jsTrim u2), some (jsTrim u1))]) := by
  constructor
  · intro m0 p r m' st' pend hp hn hf hok
    simp only [putURL, putURLstep_path_eq sha256 k now st m0 p hp hn, hf]
      at hok
    simp only [Except.ok.injEq, Prod.mk.injEq] at hok
    obtain ⟨hm, hst, _⟩ := hok
    have hrec : st'.db.records = st.db.records.map (fun rec =>
        if rec.id = r.id then
          { rec with url := normUrl m0, last_update_time := now }
        else rec) := by
      rw [← hst]
      rfl
    have hnext : st'.db.nextId = st.db.nextId := by
      rw [← hst]
      rfl
    refine ⟨by rw [hrec]; exact List.length_map _ _, hnext, ?_⟩
    rw [hrec, List.forall₂_map_left_iff, List.forall₂_same]
    intro rec hmem
    by_cases hid : rec.id = r.id
    · exact ⟨by simp [hid], by simp [hid], by simp [hid], by simp [hid],
        by simp [hid], fun hne => absurd hid hne⟩
    · simp [hid]
  · intro u1 u2 ma mb st1 st2 pa pb hfresh h1 h2 hok1 hok2
    have hn : normalizePath "a/b" ≠ "" := by decide
    have hnorm : normalizePath "a/b" = "a/b" := by decide
    have hnu1 : normUrl { path := some "a/b", url := some u1 } =
        some (jsTrim u1) := by
      simp [normUrl, truthy_some_of_ne h1]
    have hnu2 : normUrl { path := some "a/b", url := some u2 } =
        some (jsTrim u2) := by
      simp [normUrl, truthy_some_of_ne h2]
    have hins := insertRecord_path_fresh st.db "a/b" (some (jsTrim u1))
      (some (jsTrim u1)) now hfresh
    simp only [putURL, putURLstep_path_eq sha256 k now st
      { path := some "a/b", url := some u1 } "a/b" rfl hn, hnorm, hnu1,
      hfresh, hins, show hasSlash "a/b" = true from by decide, if_true]
      at hok1
    simp only [Except.ok.injEq, Prod.mk.injEq] at hok1
    obtain ⟨hma, hst1, _⟩ := hok1
    have hst1db : st1.db =
        { records := st.db.records ++
            [{ id := st.db.nextId, short_id := none, path := "a/b",
               url := some (jsTrim u1), origin_url := some (jsTrim u1),
               create_time := now, last_update_time := now }],
          nextId := st.db.nextId + 1 } := by
      rw [← hst1]
    have hfind2 : findByPath st1.db "a/b" = some
        { id := st.db.nextId, short_id := none, path := "a/b",
          url := some (jsTrim u1), origin_url := some (jsTrim u1),
          create_time := now, last_update_time := now } := by
      rw [hst1db]
      exact findByPath_append_fresh st.db.records st.db.nextId
        (st.db.nextId + 1) _ "a/b" hfresh rfl
    simp only [putURL, putURLstep_path_eq sha256 k now2 st1
      { path := some "a/b", url := some u2 } "a/b" rfl hn, hnorm, hnu2,
      hfind2] at hok2
    simp only [Except.ok.injEq, Prod.mk.injEq] at hok2
    obtain ⟨hmb, hst2, _⟩ := hok2
    have hrec2 : st2.db.records = (st.db.records ++
        [({ id := st.db.nextId, short_id := none, path := "a/b",
            url := some (jsTrim u1), origin_url := some (jsTrim u1),
            create_time := now, last_update_time := now } : Record)]).map
        (fun rec : Record =>
          if rec.id = st.db.nextId then
            { rec with url := some (jsTrim u2), last_update_time := now2 }
          else rec) := by
      rw [← hst2]
      simp only [updateUrlById, hst1db]
    rw [hrec2, List.filter_map]
    have hpred : ((fun rec : Record => decide (rec.path = "a/b")) ∘
        (fun rec : Record => if rec.id = st.db.nextId then
          { rec with url := some (jsTrim u2), last_update_time := now2 }
        else rec)) = (fun rec : Record => decide (rec.path = "a/b")) := by
      funext rec
      by_cases hid : rec.id = st.db.nextId <;> simp [hid]
    rw [hpred, List.filter_append]
    have hnil : st.db.records.filter
        (fun rec : Record => decide (rec.path = "a/b")) = [] := by
      refine List.filter_eq_nil_iff.mpr ?_
      intro rec hmem
      exact List.find?_eq_none.mp hfresh rec hmem
    rw [hnil]
    simp

/-- **C1** (amended).  In the auto short-link branch with a non-empty
collision list, the recomputed candidate length is the length of the *last*
colliding `short_id` in ascending `short_id` order — the lexicographically
greatest, which need not be the longest (see the counterexample) — and, when
no colliding row carries the same url (no reuse), the resulting `short_id`
and `path` are the first that-many characters of the url-safe encoding of
the url's hash. -/
theorem claim1_candidate_from_last (sha256 : String → List Nat) (k now : Nat)
    (st : St) (u : String) (lastRec : Record)
    (m' : Mapping) (st' : St) (pend : Option String)
    (hu : jsTrim u ≠ "")
    (hlast : (findByShortIdPrefix st.db
        (jsSubstring (longId sha256 (jsTrim u)) k)).getLast? = some lastRec)
    (hnm : ∀ rec ∈ findByShortIdPrefix st.db
        (jsSubstring (longId sha256 (jsTrim u)) k),
      rec.url ≠ some (jsTrim u))
    (hok : putURL sha256 k now st (autoReq u) = .ok (m', st', pend)) :
    m'.short_id = some (jsSubstring (longId sha256 (jsTrim u))
      (jsLength (shortKey lastRec))) ∧
    m'.path = m'.short_id := by
  have hauto : autoMapping sha256 k st { url := some (jsTrim u) } =
      { url := some (jsTrim u),
        long_id := some (longId sha256 (jsTrim u)),
        short_id := some (jsSubstring (longId sha256 (jsTrim u))
          (jsLength (shortKey lastRec))),
        path := some (jsSubstring (longId sha256 (jsTrim u))
          (jsLength (shortKey lastRec))) } := by
    simp only [autoMapping, Option.getD_some, hlast]
    refine reuseFold_no_match _ _ ?_
    intro rec hrec
    simpa using hnm rec hrec
  simp only [putURL, putURLstep_auto_eq sha256 k now st u hu, hauto,
    Option.getD_some] at hok
  cases hins : insertRecord st.db
      (some (jsSubstring (longId sha256 (jsTrim u))
        (jsLength (shortKey lastRec))))
      (jsSubstring (longId sha256 (jsTrim u)) (jsLength (shortKey lastRec)))
      (some (jsTrim u)) (some (jsTrim u)) now with
  | error e =>
    rw [hins] at hok
    exact absurd hok (by simp)
  | ok db1 =>
    rw [hins] at hok
    simp only [Except.ok.injEq, Prod.mk.injEq] at hok
    rw [← hok.1]
    exact ⟨rfl, rfl⟩

/-- Closed instantiation of `claim1_candidate_from_last` over `stC1`:
the recomputed candidate uses length 3 (the last colliding row `"AAB"`),
giving `short_id = "AAA"`. -/
theorem claim1_witness :
    mC1res.short_id = some (jsSubstring (longId sha0 (jsTrim "U"))
      (jsLength (shortKey recAAB))) ∧
    mC1res.path = mC1res.short_id :=
  claim1_candidate_from_last sha0 2 5 stC1 "U" recAAB
    mC1res stC1after (some "AAA")
    (by decide) (by decide) (by decide) (by decide)

/-- **C3** (confirmed).  Writing the same url `U` with no explicit path twice
is idempotent: the second call returns the same `path` and `short_id` as the
first, changes nothing (`st2 = st1`, so no record is inserted and no row is
touched), and its result is a reused stored row (it carries a row `id`) whose
url is exactly the trimmed `U`. -/
theorem claim3_auto_write_idempotent (sha256 : String → List Nat)
    (k now1 now2 : Nat) (st : St) (u : String)
    (m1 m2 : Mapping) (st1 st2 : St) (p1 p2 : Option String)
    (hu : jsTrim u ≠ "")
    (hok1 : putURL sha256 k now1 st (autoReq u) = .ok (m1, st1, p1))
    (hok2 : putURL sha256 k now2 st1 (autoReq u) = .ok (m2, st2, p2)) :
    m2.path = m1.path ∧ m2.short_id = m1.short_id ∧ st2 = st1 ∧
    m2.id.isSome = true ∧ m2.url = some (jsTrim u) := by
  simp only [putURL, putURLstep_auto_eq sha256 k now1 st u hu] at hok1
  cases hid1 : (autoMapping sha256 k st { url := some (jsTrim u) }).id with
  | some i =>
    -- the first call already reused a stored row: nothing changed, and the
    -- second call is the very same computation
    rw [hid1] at hok1
    simp only [Except.ok.injEq, Prod.mk.injEq] at hok1
    obtain ⟨hm1, hst1, hp1⟩ := hok1
    rw [← hst1] at hok2
    simp only [putURL, putURLstep_auto_eq sha256 k now2 st u hu] at hok2
    rw [hid1] at hok2
    simp only [Except.ok.injEq, Prod.mk.injEq] at hok2
    obtain ⟨hm2, hst2, hp2⟩ := hok2
    rw [← hm1, ← hm2]
    refine ⟨rfl, rfl, hst2.symm.trans hst1, ?_, ?_⟩
    · rw [hid1]
      rfl
    · rw [autoMapping_url]
  | none =>
    -- the first call inserted a fresh row; the second call finds it in the
    -- collision scan and reuses it
    obtain ⟨c, hlit, hcpre, hnm⟩ :=
      autoMapping_id_none sha256 k st (jsTrim u) hid1
    rw [hid1] at hok1
    simp only [hlit, Option.getD_some] at hok1
    cases hins : insertRecord st.db (some c) c (some (jsTrim u))
        (some (jsTrim u)) now1 with
    | error e =>
      rw [hins] at hok1
      exact absurd hok1 (by simp)
    | ok db1 =>
      rw [hins] at hok1
      simp only [Except.ok.injEq, Prod.mk.injEq] at hok1
      obtain ⟨hm1, hst1, hp1⟩ := hok1
      have hdb1 := insertRecord_ok_shape st.db (some c) c (some (jsTrim u))
        (some (jsTrim u)) now1 db1 hins
      have hrecs : st1.db.records = st.db.records ++
          [{ id := st.db.nextId, short_id := some c, path := c,
             url := some (jsTrim u), origin_url := some (jsTrim u),
             create_time := now1, last_update_time := now1 }] := by
        rw [← hst1, hdb1]
      have hauto2 := autoMapping_reuse_inserted sha256 k st st1
        (jsTrim u) c _ hrecs rfl rfl hcpre hnm
      simp only [putURL, putURLstep_auto_eq sha256 k now2 st1 u hu, hauto2,
        recordToMapping] at hok2
      simp only [Except.ok.injEq, Prod.mk.injEq] at hok2
      obtain ⟨hm2, hst2, hp2⟩ := hok2
      rw [← hm1, ← hm2]
      exact ⟨rfl, rfl, hst2.symm, rfl, rfl⟩

/-- Closed instantiation of `claim3_auto_write_idempotent`: two writes of
`{url: "U"}` against the empty store. -/
theorem claim3_witness :
    mAA2.path = mAA1.path ∧ mAA2.short_id = mAA1.short_id ∧
    (stAA : St) = stAA ∧ mAA2.id.isSome = true ∧
    mAA2.url = some (jsTrim "U") :=
  claim3_auto_write_idempotent sha0 2 1 2 emptySt "U" mAA1 mAA2 stAA stAA
    (some "AA") (some "AA") (by decide) (by decide) (by decide)

/-- Closed instantiation of both parts of `claim7_update_frame`. -/
theorem claim7_witness :
    ((stabU2.db.records.filter (fun rec => decide (rec.path = "a/b"))).map
        (fun rec => (rec.url, rec.origin_url)) =
      [(some (jsTrim "U2"), some (jsTrim "U1"))]) ∧
    stabAfter.db.records.length = stab.db.records.length := by
  constructor
  · exact (claim7_update_frame sha0 2 0 1 emptySt).2 "U1" "U2"
      { path := some "a/b", url := some "U1" }
      { path := some "a/b", url := some "U2" }
      stab stabU2 (some "a/b") (some "a/b")
      (by decide) (by decide) (by decide) (by decide) (by decide)
  · exact ((claim7_update_frame sha0 2 3 0 stab).1
      { path := some "a/b", url := some " " } "a/b"
      { id := 0, short_id := none, path := "a/b", url := some "U1",
        origin_url := some "U1", create_time := 0, last_update_time := 0 }
      mC10res stabAfter (some "a/b") (by decide) (by decide) (by decide)
      (by decide)).1

end ShortUrl
